import Mathlib

/-!
Verification of the workflow index build script (`scripts/build_workflows.py`).

The Python source is embedded shallowly:
* Python strings are Lean `String`s (lists of characters); the string methods
  used by the script (`lower`, `title`, `startswith`, `replace`, `strip`,
  the regex substitution of `slugify`, and the `in` substring test) are
  defined below, faithful to CPython for ASCII data (the script's keyword
  taxonomy and markers are all ASCII; Unicode simple case folding is elided).
* JSON values produced by `json.load` are the inductive `Json`; the dynamic
  (duck-typed) operations the script applies to them (`.get`, `[...]`,
  `in`, iteration, `.lower()`, truthiness, `str()`) are embedded as
  functions returning `Except PyErr _` where CPython would raise.
* `process_workflow_file` catches every exception and returns `None`;
  it is embedded as `Option Workflow`.
-/

namespace BuildWorkflows

/-! ## ASCII model of the Python string methods used by the script -/

/-- ASCII lower-casing of one character (model of one step of `str.lower`);
65–90 are the codes of `A`–`Z`. -/
def lowerChar (c : Char) : Char :=
  if 65 ≤ c.toNat && c.toNat ≤ 90 then Char.ofNat (c.toNat + 32) else c

/-- ASCII upper-casing of one character; 97–122 are the codes of `a`–`z`. -/
def upperChar (c : Char) : Char :=
  if 97 ≤ c.toNat && c.toNat ≤ 122 then Char.ofNat (c.toNat - 32) else c

/-- ASCII model of Python's notion of a cased character. -/
def isCased (c : Char) : Bool :=
  (97 ≤ c.toNat && c.toNat ≤ 122) || (65 ≤ c.toNat && c.toNat ≤ 90)

/-- Model of `str.lower`. -/
def lowerStr (s : String) : String :=
  ⟨s.data.map lowerChar⟩

/-- Model of `str.title`: a cased character is upper-cased when the previous
character is not cased and lower-cased otherwise (CPython semantics). -/
def titleAux : Bool → List Char → List Char
  | _, [] => []
  | prevCased, c :: cs =>
    if isCased c then
      (if prevCased then lowerChar c else upperChar c) :: titleAux true cs
    else
      c :: titleAux false cs

/-- Model of `str.title`. -/
def pyTitle (s : String) : String :=
  ⟨titleAux false s.data⟩

/-- Substring occurrence on character lists: model of Python's `pat in s`. -/
def occursList (pat : List Char) : List Char → Bool
  | [] => pat.isEmpty
  | c :: cs => pat.isPrefixOf (c :: cs) || occursList pat cs

/-- Model of `pat in s` for strings. -/
def occursStr (pat s : String) : Bool :=
  occursList pat.data s.data

/-- Model of `s.startswith(pat)`. -/
def pyStartsWith (s pat : String) : Bool :=
  pat.data.isPrefixOf s.data

/-- Fuel-driven engine of `str.replace`: replaces non-overlapping occurrences
of `pat` left to right.  Each step consumes at least one character when `pat`
is non-empty, so fuel equal to the length of the string suffices. -/
def pyReplaceAux (pat repl : List Char) : Nat → List Char → List Char
  | 0, s => s
  | _ + 1, [] => []
  | fuel + 1, c :: cs =>
    if pat.isPrefixOf (c :: cs) then
      repl ++ pyReplaceAux pat repl fuel (List.drop pat.length (c :: cs))
    else
      c :: pyReplaceAux pat repl fuel cs

/-- Model of `s.replace(pat, repl)` (the script only uses non-empty `pat`). -/
def pyReplace (s pat repl : String) : String :=
  ⟨pyReplaceAux pat.data repl.data s.data.length s.data⟩

/-- Drop the first `n` characters of a string. -/
def stringDrop (s : String) (n : Nat) : String :=
  ⟨s.data.drop n⟩

/-! ## `slugify` (source lines 14-16)

`re.sub(r'[^a-z0-9]+', '-', text.lower()).strip('-')`: the regex replaces
every maximal run of characters outside `[a-z0-9]` by a single hyphen, which
is modelled as a per-character replacement (`dashify`) followed by collapsing
adjacent hyphens (`collapseDash`) — a run of non-matching characters maps to
a run of hyphens and to nothing else, so the two are the same function.
`strip('-')` trims hyphens from both ends. -/

/-- Is `c` kept by the slug character class `[a-z0-9]`?  97–122 are the
codes of `a`–`z` and 48–57 those of `0`–`9`. -/
def isSlugChar (c : Char) : Bool :=
  (97 ≤ c.toNat && c.toNat ≤ 122) || (48 ≤ c.toNat && c.toNat ≤ 57)

/-- Replace every character outside `[a-z0-9]` by a hyphen. -/
def dashify (cs : List Char) : List Char :=
  cs.map (fun c => if isSlugChar c then c else '-')

/-- Collapse maximal runs of adjacent hyphens to a single hyphen. -/
def collapseDash : List Char → List Char
  | [] => []
  | c :: cs =>
    match collapseDash cs with
    | [] => [c]
    | d :: ds => if c == '-' && d == '-' then d :: ds else c :: d :: ds

/-- Drop trailing hyphens. -/
def dropTrail : List Char → List Char
  | [] => []
  | c :: cs =>
    match dropTrail cs with
    | [] => if c == '-' then [] else [c]
    | d :: ds => c :: d :: ds

/-- Model of `.strip('-')`: trim hyphens from both ends. -/
def stripDash (cs : List Char) : List Char :=
  dropTrail (cs.dropWhile (fun c => c == '-'))

/-- `slugify` from the source: lower-case, coalesce runs of characters
outside `[a-z0-9]` into single hyphens, strip hyphens at both ends. -/
def slugify (text : String) : String :=
  ⟨stripDash (collapseDash (dashify (lowerStr text).data))⟩

/-! ## JSON documents and the dynamic operations applied to them

`Json` models the values `json.load` can produce.  Numeric literals are
modelled as integers (no claim involves fractional numbers); an object is
the parsed dict's key/value pairs, whose keys are unique by construction
(`json.load` keeps one binding per key). -/

inductive Json where
  | null
  | bool (b : Bool)
  | num (n : Int)
  | str (s : String)
  | arr (xs : List Json)
  | obj (fields : List (String × Json))
deriving Repr

/-- The exceptions the script can raise while processing one file; all of
them are swallowed by the per-file handler of `process_workflow_file`. -/
inductive PyErr where
  | typeError (msg : String)
  | attributeError (msg : String)
  | keyError (msg : String)
  | jsonDecodeError (msg : String)
deriving DecidableEq, Repr

/-- Look a key up in a parsed object (keys are unique, see `Json`). -/
def objLookup (fields : List (String × Json)) (key : String) : Option Json :=
  match fields with
  | [] => none
  | (k, v) :: rest => if k = key then some v else objLookup rest key

/-- Model of `data.get(key, default)`: a dict method, an `AttributeError`
on every other value. -/
def pyDictGet (j : Json) (key : String) (default : Json) : Except PyErr Json :=
  match j with
  | .obj fs => .ok ((objLookup fs key).getD default)
  | _ => .error (.attributeError "get")

/-- Python equality `x == key` between a value and a string key: true
exactly on the equal string (no other `json.load` value equals a `str`). -/
def jsonEqStr (x : Json) (key : String) : Bool :=
  match x with
  | .str s => s == key
  | _ => false

/-- Model of `key in container` for a string key: key membership on a dict,
element equality on a list, substring test on a string, `TypeError`
otherwise. -/
def pyContains (container : Json) (key : String) : Except PyErr Bool :=
  match container with
  | .obj fs => .ok (fs.any (fun kv => kv.1 == key))
  | .arr xs => .ok (xs.any (fun x => jsonEqStr x key))
  | .str s => .ok (occursStr key s)
  | _ => .error (.typeError "argument is not iterable")

/-- Model of `container[key]` for a string key: dict lookup (`KeyError`
when absent), `TypeError` on strings, lists and scalars. -/
def pyGetItem (container : Json) (key : String) : Except PyErr Json :=
  match container with
  | .obj fs =>
    match objLookup fs key with
    | some v => .ok v
    | none => .error (.keyError key)
  | .str _ => .error (.typeError "string indices must be integers")
  | .arr _ => .error (.typeError "list indices must be integers")
  | _ => .error (.typeError "object is not subscriptable")

/-- Model of `for x in j`: a list yields its elements, a string its
characters, a dict its keys; scalars raise `TypeError`. -/
def pyIter (j : Json) : Except PyErr (List Json) :=
  match j with
  | .arr xs => .ok xs
  | .str s => .ok (s.data.map (fun c => Json.str (String.singleton c)))
  | .obj fs => .ok (fs.map (fun kv => Json.str kv.1))
  | _ => .error (.typeError "object is not iterable")

/-- Model of Python truthiness on values from `json.load`. -/
def pyTruthy : Json → Bool
  | .null => false
  | .bool b => b
  | .num n => n != 0
  | .str s => s != ""
  | .arr xs => !xs.isEmpty
  | .obj fs => !fs.isEmpty

/-- Model of `j.lower()`: defined on strings, `AttributeError` otherwise. -/
def pyLower (j : Json) : Except PyErr String :=
  match j with
  | .str s => .ok (lowerStr s)
  | _ => .error (.attributeError "lower")

/-- Coerce to a string at a method call site (for example `.startswith`);
`AttributeError` on every non-string value. -/
def asStrAttr (j : Json) (attr : String) : Except PyErr String :=
  match j with
  | .str s => .ok s
  | _ => .error (.attributeError attr)

/-- Model of Python `repr` for values from `json.load` (the escaping of
quote characters inside string literals is elided; no claim depends on the
rendering of containers). -/
def pyRepr : Json → String
  | .null => "None"
  | .bool true => "True"
  | .bool false => "False"
  | .num n => toString n
  | .str s => "'" ++ s ++ "'"
  | .arr xs => "[" ++ String.intercalate ", " (xs.attach.map (fun x => pyRepr x.1)) ++ "]"
  | .obj fs =>
    "\x7b" ++
      String.intercalate ", "
        (fs.attach.map (fun kv => "'" ++ kv.1.1 ++ "': " ++ pyRepr kv.1.2)) ++
    "\x7d"
decreasing_by
  all_goals simp_wf
  · have := List.sizeOf_lt_of_mem x.2
    omega
  · have h1 := List.sizeOf_lt_of_mem kv.2
    obtain ⟨⟨k, v⟩, hm⟩ := kv
    simp at h1 ⊢
    omega

/-- Model of `str(j)` as used by an f-string: identity on strings,
`repr`-style rendering otherwise. -/
def pyStr : Json → String
  | .str s => s
  | j => pyRepr j

/-! ## Category taxonomy and `categorize_workflow` (source lines 18-49) -/

/-- The fixed keyword taxonomy of `load_search_categories`, in the source's
(insertion) order, which is also the iteration order of the Python dict. -/
def load_search_categories : List (String × List String) :=
  [("marketing", ["lead", "email", "campaign", "social", "content", "seo", "analytics"]),
   ("sales", ["crm", "deal", "quote", "invoice", "customer", "sales", "pipeline"]),
   ("business-intelligence", ["report", "dashboard", "analytics", "data", "bi", "metrics"]),
   ("automation", ["workflow", "process", "trigger", "schedule", "notification"]),
   ("communication", ["slack", "email", "chat", "notification", "message"]),
   ("finance", ["stripe", "paypal", "invoice", "payment", "accounting"]),
   ("productivity", ["calendar", "task", "todo", "reminder", "scheduling"]),
   ("e-commerce", ["shopify", "woocommerce", "product", "order", "inventory"]),
   ("hr", ["employee", "recruitment", "onboarding", "time", "leave"]),
   ("support", ["ticket", "helpdesk", "zendesk", "support", "customer-service"])]

/-- The category identifiers of the taxonomy. -/
def catNames : List String :=
  load_search_categories.map (fun p => p.1)

/-- The score of one category: `sum(1 for keyword in keywords if keyword in
text)`. -/
def scoreText (keywords : List String) (text : String) : Nat :=
  (keywords.filter (fun kw => occursStr kw text)).length

/-- The combined text blob of `categorize_workflow`:
`f"{name} {description} {' '.join(integrations)}".lower()`. -/
def blobOf (name description : Json) (integrations : List String) : String :=
  lowerStr (pyStr name ++ " " ++ pyStr description ++ " " ++
            String.intercalate " " integrations)

/-- The `scores` dict of `categorize_workflow` as its insertion-ordered
item list: only categories with a positive score are entered, in taxonomy
order. -/
def scoredCategories (text : String) : List (String × Nat) :=
  load_search_categories.filterMap (fun p =>
    let score := scoreText p.2 text
    if 0 < score then some (p.1, score) else none)

/-- Python's `max(items, key=lambda x: x[1])`: keeps the current best on a
tie, so of all maximal-score items the first one wins. -/
def maxByScore : String × Nat → List (String × Nat) → String × Nat
  | best, [] => best
  | best, x :: rest => maxByScore (if best.2 < x.2 then x else best) rest

/-- `categorize_workflow` from the source: the highest-scoring category with
a positive score, first in taxonomy order on ties, and `"automation"` when
every score is zero. -/
def categorize_workflow (name description : Json) (integrations : List String) : String :=
  let text := blobOf name description integrations
  match scoredCategories text with
  | [] => "automation"
  | s :: rest => (maxByScore s rest).1

/-! ## `extract_integrations` (source lines 51-69) -/

/-- The per-node rewriting of a `type` string.  Note that
`node_type.replace('n8n-nodes-', '')` and `node_type.replace('base.', '')`
remove every occurrence of their pattern, not only the leading one; the
`startswith` tests merely guard whether the replacement runs at all. -/
def cleanNodeType (node_type : String) : String :=
  let s1 := if pyStartsWith node_type "n8n-nodes-" then
              pyReplace node_type "n8n-nodes-" "" else node_type
  let s2 := if pyStartsWith s1 "base." then pyReplace s1 "base." "" else s1
  pyTitle (pyReplace s2 "-" " ")

/-- Insertion into the `integrations` set, modelled with insertion order
(Python set iteration order is unspecified; every property stated below is
independent of the order). -/
def setAdd (s : List String) (x : String) : List String :=
  if x ∈ s then s else s ++ [x]

/-- The `for node in workflow_data['nodes']` loop of `extract_integrations`,
accumulating the `integrations` set. -/
def extractLoop : List Json → List String → Except PyErr (List String)
  | [], acc => .ok acc
  | node :: rest, acc =>
    match pyContains node "type" with
    | .error e => .error e
    | .ok false => extractLoop rest acc
    | .ok true =>
      match pyGetItem node "type" with
      | .error e => .error e
      | .ok tv =>
        match asStrAttr tv "startswith" with
        | .error e => .error e
        | .ok node_type => extractLoop rest (setAdd acc (cleanNodeType node_type))

/-- The value of the `integrations` set when the loop of
`extract_integrations` finishes (before the truncation to 5). -/
def integrationsSet (workflow_data : Json) : Except PyErr (List String) :=
  match pyContains workflow_data "nodes" with
  | .error e => .error e
  | .ok false => .ok []
  | .ok true =>
    match pyGetItem workflow_data "nodes" with
    | .error e => .error e
    | .ok nodesv =>
      match pyIter nodesv with
      | .error e => .error e
      | .ok nodes => extractLoop nodes []

/-- `extract_integrations` from the source: the set of cleaned node types,
truncated to 5 entries (`list(integrations)[:5]`). -/
def extract_integrations (workflow_data : Json) : Except PyErr (List String) :=
  match integrationsSet workflow_data with
  | .error e => .error e
  | .ok integrations => .ok (integrations.take 5)

/-! ## `process_workflow_file` (source lines 71-110) -/

/-- Split a character list at `'/'` separators. -/
def splitSlash : List Char → List (List Char)
  | [] => [[]]
  | c :: cs =>
    let r := splitSlash cs
    if c = '/' then [] :: r
    else
      match r with
      | [] => [[c]]
      | h :: t => (c :: h) :: t

/-- Model of `Path(file_path).stem`: the final path component, minus its
suffix; the suffix starts at the last dot of the component provided that
dot is neither the first nor the last character (pathlib semantics). -/
def pathStem (file_path : String) : String :=
  let name := (splitSlash file_path.data).getLastD []
  let ir := name.reverse.indexOf '.'
  if ir < name.length then
    let i := name.length - 1 - ir
    if 0 < i ∧ i < name.length - 1 then ⟨name.take i⟩ else ⟨name⟩
  else ⟨name⟩

/-- One discovered file as `process_workflow_file` sees it: its relative
path, the outcome of `json.load` on its bytes, and its last-modified time
already rendered by `datetime.fromtimestamp(...).isoformat()`. -/
structure FileInput where
  path : String
  parsed : Except PyErr Json
  mtimeIso : String

/-- The output record (the `workflow` dict of the source).  `name`,
`description` and `updated_at` keep the dynamic values the script stores in
the dict; `gh_path` is `str(Path(file_path).relative_to('.'))`, which is the
path itself for the relative paths that discovery yields. -/
structure Workflow where
  slug : String
  name : Json
  description : Json
  integrations : List String
  category : String
  gh_path : String
  updated_at : Json

/-- Apply `slugify` to a dynamic value: `slugify` immediately calls
`text.lower()`, so every non-string raises `AttributeError`. -/
def slugifyPy (name : Json) : Except PyErr String :=
  match name with
  | .str s => .ok (slugify s)
  | _ => .error (.attributeError "lower")

/-- The body of the `try` block of `process_workflow_file`, in source
order: parse, resolve `name` and `description`, extract integrations,
compute slug, category and `updated_at`, and assemble the record. -/
def buildRecord (fi : FileInput) : Except PyErr Workflow :=
  match fi.parsed with
  | .error e => .error e
  | .ok data =>
  match pyDictGet data "name" (.str (pathStem fi.path)) with
  | .error e => .error e
  | .ok name =>
  match pyDictGet data "description" (.str "") with
  | .error e => .error e
  | .ok desc0 =>
  match (if pyTruthy desc0 then .ok desc0 else
          match pyLower name with
          | .error e => .error e
          | .ok nl => .ok (.str ("Automated workflow for " ++ nl)) :
         Except PyErr Json) with
  | .error e => .error e
  | .ok description =>
  match extract_integrations data with
  | .error e => .error e
  | .ok integrations =>
  match slugifyPy name with
  | .error e => .error e
  | .ok slug =>
  match pyDictGet data "updatedAt" .null with
  | .error e => .error e
  | .ok upJ =>
  .ok { slug := slug, name := name, description := description,
        integrations := integrations,
        category := categorize_workflow name description integrations,
        gh_path := fi.path,
        updated_at := if pyTruthy upJ then upJ else Json.str fi.mtimeIso }

/-- `process_workflow_file`: the `try`/`except` wrapper — any exception is
reported and turned into `None`. -/
def process_workflow_file (fi : FileInput) : Option Workflow :=
  match buildRecord fi with
  | .ok w => some w
  | .error _ => none

/-! ## The aggregation step of `main` (source lines 130-148) -/

/-- Deduplication keeping the first occurrence: the deterministic model of
`list(set(...))` used for the `categories` fields (set iteration order is
unspecified; no stated property depends on the order). -/
def dedupKeepFirst (l : List String) : List String :=
  l.foldl setAdd []

/-- The `output_data` document written by `main`. -/
structure OutputData where
  workflows : List Workflow
  total_count : Nat
  categories : List String
  generated_at : String
  version : String

/-- The processing-and-aggregation fold of `main`: process every discovered
file, keep the successful records, and assemble `output_data`
(`generated_at` is `datetime.now().isoformat()`, passed in as `now`). -/
def buildOutput (files : List FileInput) (now : String) : OutputData :=
  let workflows := files.filterMap process_workflow_file
  { workflows := workflows,
    total_count := workflows.length,
    categories := dedupKeepFirst (workflows.map (fun w => w.category)),
    generated_at := now,
    version := "1.0" }

/-- Modelled from the words of claim C3, for comparison with the source's
`cleanNodeType`: remove the marker `"n8n-nodes-"` only as a leading
occurrence, then a leading `"base."` segment, then replace hyphens with
spaces and title-case. -/
def claimCleanNodeType (node_type : String) : String :=
  let s1 := if pyStartsWith node_type "n8n-nodes-" then
              stringDrop node_type 10 else node_type
  let s2 := if pyStartsWith s1 "base." then stringDrop s1 5 else s1
  pyTitle (pyReplace s2 "-" " ")

/-! ## Slug shape predicates -/

/-- No two adjacent hyphens occur. -/
def noDD : List Char → Bool
  | [] => true
  | [_] => true
  | a :: b :: rest => !(a == '-' && b == '-') && noDD (b :: rest)

/-- The head, if any, is not a hyphen. -/
def headNotDash : List Char → Bool
  | [] => true
  | c :: _ => !(c == '-')

/-- The last character, if any, is not a hyphen. -/
def lastNotDash : List Char → Bool
  | [] => true
  | [c] => !(c == '-')
  | _ :: c :: rest => lastNotDash (c :: rest)

/-- The shape of a well-formed slug: every character in `[a-z0-9-]`, no
doubled hyphen, no leading hyphen, no trailing hyphen. -/
def slugShapeOk (s : String) : Bool :=
  s.data.all (fun c => isSlugChar c || c == '-') && noDD s.data &&
  headNotDash s.data && lastNotDash s.data

/-- No character after lower-casing falls in `[a-z0-9]`. -/
def noAlnumLower (s : String) : Bool :=
  (lowerStr s).data.all (fun c => !isSlugChar c)

/-! ## Keyword occurrence predicate -/

/-- Does any taxonomy keyword occur in the combined blob? -/
def anyKeywordMatch (name description : Json) (integrations : List String) : Bool :=
  load_search_categories.any (fun p =>
    p.2.any (fun kw => occursStr kw (blobOf name description integrations)))

/-! ## Concrete documents used by the extraction claims -/

/-- A document whose six nodes derive six distinct integration names. -/
def doc6 : Json :=
  .obj [("nodes", .arr [.obj [("type", .str "a")], .obj [("type", .str "b")],
    .obj [("type", .str "c")], .obj [("type", .str "d")],
    .obj [("type", .str "e")], .obj [("type", .str "f")]])]

/-! ## Concrete inputs used by the end-to-end claims -/

/-- The document of end-to-end scenario 1. -/
def fi9 : FileInput :=
  { path := "workflows/lead.json",
    parsed := .ok (.obj [("name", .str "Lead Email Campaign"),
      ("nodes", .arr [.obj [("type", .str "n8n-nodes-base.gmail")]])]),
    mtimeIso := "2024-01-01T00:00:00" }

/-- The record the script builds for `fi9`. -/
def record9 : Workflow :=
  { slug := "lead-email-campaign", name := .str "Lead Email Campaign",
    description := .str "Automated workflow for lead email campaign",
    integrations := ["Gmail"], category := "marketing",
    gh_path := "workflows/lead.json",
    updated_at := .str "2024-01-01T00:00:00" }

/-- A document whose `name` field is present but empty. -/
def fiEmptyName : FileInput :=
  { path := "a.json", parsed := .ok (.obj [("name", .str "")]), mtimeIso := "t0" }

/-- The record the script builds for `fiEmptyName`: its slug is empty. -/
def recEmptyName : Workflow :=
  { slug := "", name := .str "", description := .str "Automated workflow for ",
    integrations := [], category := "automation", gh_path := "a.json",
    updated_at := .str "t0" }

/-- A document with `updatedAt` present but empty. -/
def fi7 : FileInput :=
  { path := "b.json",
    parsed := .ok (.obj [("name", .str "A"), ("updatedAt", .str "")]),
    mtimeIso := "MT" }

/-- The record the script builds for `fi7`: `updated_at` falls back to the
file's modification time. -/
def record7 : Workflow :=
  { slug := "a", name := .str "A",
    description := .str "Automated workflow for a",
    integrations := [], category := "automation", gh_path := "b.json",
    updated_at := .str "MT" }

/-- A file whose contents fail to parse. -/
def fiBad : FileInput :=
  { path := "bad.json", parsed := .error (.jsonDecodeError "invalid"),
    mtimeIso := "t" }

/-- A document with a present but non-list, text-valued `nodes` field. -/
def fi10b : FileInput :=
  { path := "a.json",
    parsed := .ok (.obj [("name", .str "x"), ("nodes", .str "hello")]),
    mtimeIso := "T" }

/-- The record the script builds for `fi10b` — the text-valued `nodes`
field is iterated character-wise, finds no `type`, and raises nothing. -/
def record10b : Workflow :=
  { slug := "x", name := .str "x",
    description := .str "Automated workflow for x",
    integrations := [], category := "automation", gh_path := "a.json",
    updated_at := .str "T" }

/-- A document whose `name` field is present with a numeric value. -/
def fi10a : FileInput :=
  { path := "a.json", parsed := .ok (.obj [("name", .num 5)]), mtimeIso := "T" }

/-! ## Properties and claim theorems -/

example : slugify "Lead Email Campaign" = "lead-email-campaign" := by decide
example : slugify "  --Hello,  World!--  " = "hello-world" := by decide
example : slugify "" = "" := by decide

example :
    categorize_workflow (.str "Lead Email Campaign")
      (.str "Automated workflow for lead email campaign") ["Gmail"] = "marketing" := by
  decide

example : categorize_workflow (.str "workflow") (.str "") [] = "automation" := by decide
example : categorize_workflow (.str "xyz") (.str "") [] = "automation" := by decide

example : cleanNodeType "n8n-nodes-base.gmail" = "Gmail" := by decide
example : cleanNodeType "n8n-nodes-base.http-request" = "Http Request" := by decide

example :
    extract_integrations
      (.obj [("nodes", .arr [.obj [("type", .str "n8n-nodes-base.gmail")]])])
      = .ok ["Gmail"] := by rfl

example : extract_integrations (.obj [("name", .str "x")]) = .ok [] := by rfl

example : pathStem "workflows/misc_task.json" = "misc_task" := by decide

/-! ## Lemmas about `pyReplace` and substring occurrence -/

lemma isPrefixOf_iff_exists {pat s : List Char} :
    pat.isPrefixOf s = true ↔ ∃ r, s = pat ++ r := by
  rw [List.isPrefixOf_iff_prefix]
  constructor
  · rintro ⟨r, hr⟩
    exact ⟨r, hr.symm⟩
  · rintro ⟨r, hr⟩
    exact ⟨r, hr.symm⟩

lemma occursList_cons_false {pat : List Char} {c : Char} {cs : List Char}
    (h : occursList pat (c :: cs) = false) :
    pat.isPrefixOf (c :: cs) = false ∧ occursList pat cs = false := by
  simpa [occursList] using h

/-- A replacement with no occurrence of the pattern is the identity
(for any amount of fuel). -/
lemma pyReplaceAux_of_not_occurs (pat repl : List Char) :
    ∀ (fuel : Nat) (s : List Char), occursList pat s = false →
      pyReplaceAux pat repl fuel s = s := by
  intro fuel
  induction fuel with
  | zero =>
    intro s _
    rfl
  | succ n ih =>
    intro s h
    cases s with
    | nil => rfl
    | cons c cs =>
      obtain ⟨h1, h2⟩ := occursList_cons_false h
      rw [pyReplaceAux, if_neg (by simp [h1]), ih cs h2]

/-- Replacing in `pat ++ r` when the pattern does not occur in `r`
replaces exactly the leading occurrence. -/
lemma pyReplaceAux_leading (pat repl r : List Char) (hp : pat ≠ [])
    (hr : occursList pat r = false) :
    ∀ fuel : Nat, 0 < fuel →
      pyReplaceAux pat repl fuel (pat ++ r) = repl ++ r := by
  intro fuel hf
  cases fuel with
  | zero => omega
  | succ n =>
    cases pat with
    | nil => exact absurd rfl hp
    | cons p ps =>
      have hpre : (p :: ps).isPrefixOf (p :: (ps ++ r)) = true :=
        isPrefixOf_iff_exists.mpr ⟨r, rfl⟩
      show pyReplaceAux (p :: ps) repl (n + 1) (p :: (ps ++ r)) = repl ++ r
      have hdrop : List.drop (p :: ps).length (p :: (ps ++ r)) = r :=
        List.drop_left (p :: ps) r
      rw [pyReplaceAux, if_pos hpre, hdrop,
          pyReplaceAux_of_not_occurs (p :: ps) repl n r hr]

/-- String-level version: when `s` starts with `pat` and `pat` does not
occur in the remainder, `s.replace(pat, '')` removes only that leading
occurrence. -/
lemma pyReplace_leading (s pat : String) (hp : pat.data ≠ [])
    (hs : pyStartsWith s pat = true)
    (hr : occursStr pat (stringDrop s pat.data.length) = false) :
    pyReplace s pat "" = stringDrop s pat.data.length := by
  obtain ⟨r, hsr⟩ := isPrefixOf_iff_exists.mp hs
  have hrr : occursList pat.data r = false := by
    unfold occursStr stringDrop at hr
    rw [hsr] at hr
    simpa [List.drop_left] using hr
  unfold pyReplace stringDrop
  rw [hsr, List.drop_left]
  have hlen : 0 < (pat.data ++ r).length := by
    cases hpd : pat.data with
    | nil => exact absurd hpd hp
    | cons a l => simp [hpd]
  rw [pyReplaceAux_leading pat.data [] r hp hrr _ hlen]
  rfl

/-- C3 counterexample: the per-node transformation is not the leading-only
removal described by the claim — `str.replace` removes every occurrence
when the `startswith` guard fires.  On `"n8n-nodes-a-n8n-nodes-b"` the
source yields `"A B"` while the claim's transformation yields
`"A N8N Nodes B"`. -/
theorem cleanNodeType_counterexample :
    cleanNodeType "n8n-nodes-a-n8n-nodes-b"
      ≠ claimCleanNodeType "n8n-nodes-a-n8n-nodes-b" := by
  decide

/-- C3 (amended): the per-node transformation agrees with the claim's
leading-only removal for every node type in which the marker
`"n8n-nodes-"` does not recur after its leading occurrence and `"base."`
does not recur after its leading occurrence in the intermediate string. -/
theorem cleanNodeType_leading_only (t : String)
    (h1 : pyStartsWith t "n8n-nodes-" = true →
          occursStr "n8n-nodes-" (stringDrop t 10) = false)
    (h2 : pyStartsWith (if pyStartsWith t "n8n-nodes-" then stringDrop t 10 else t)
            "base." = true →
          occursStr "base."
            (stringDrop (if pyStartsWith t "n8n-nodes-" then stringDrop t 10 else t) 5)
            = false) :
    cleanNodeType t = claimCleanNodeType t := by
  unfold cleanNodeType claimCleanNodeType
  by_cases hs1 : pyStartsWith t "n8n-nodes-" = true
  · rw [hs1] at h2
    have e1 : pyReplace t "n8n-nodes-" "" = stringDrop t 10 :=
      pyReplace_leading t "n8n-nodes-" (by decide) hs1 (h1 hs1)
    simp only [hs1, if_true] at h2 ⊢
    rw [e1]
    by_cases hs2 : pyStartsWith (stringDrop t 10) "base." = true
    · have e2 : pyReplace (stringDrop t 10) "base." "" = stringDrop (stringDrop t 10) 5 :=
        pyReplace_leading (stringDrop t 10) "base." (by decide) hs2 (h2 hs2)
      simp only [hs2, if_true]
      rw [e2]
    · simp only [Bool.not_eq_true] at hs2
      simp only [hs2, Bool.false_eq_true, if_false]
  · simp only [Bool.not_eq_true] at hs1
    rw [hs1] at h2
    simp only [hs1, Bool.false_eq_true, if_false] at h2 ⊢
    by_cases hs2 : pyStartsWith t "base." = true
    · have e2 : pyReplace t "base." "" = stringDrop t 5 :=
        pyReplace_leading t "base." (by decide) hs2 (h2 hs2)
      simp only [hs2, if_true]
      rw [e2]
    · simp only [Bool.not_eq_true] at hs2
      simp only [hs2, Bool.false_eq_true, if_false]

/-- C3 witness: the amended statement applied to the marker-then-base
node type of the repository's workflows. -/
theorem cleanNodeType_leading_only_witness :
    cleanNodeType "n8n-nodes-base.gmail" = claimCleanNodeType "n8n-nodes-base.gmail" :=
  cleanNodeType_leading_only "n8n-nodes-base.gmail" (by decide) (by decide)

lemma noDD_tail (a : Char) (l : List Char) (h : noDD (a :: l) = true) :
    noDD l = true := by
  cases l with
  | nil => rfl
  | cons b bs =>
    rw [noDD, Bool.and_eq_true] at h
    exact h.2

lemma dashify_chars (l : List Char) :
    ∀ c ∈ dashify l, (isSlugChar c || c == '-') = true := by
  intro c hc
  obtain ⟨a, _, ha⟩ := List.mem_map.mp hc
  by_cases h : isSlugChar a = true
  · rw [if_pos h] at ha
    subst ha
    simp [h]
  · rw [if_neg h] at ha
    subst ha
    decide

lemma collapseDash_subset (l : List Char) : ∀ c ∈ collapseDash l, c ∈ l := by
  induction l with
  | nil =>
    intro c hc
    simp [collapseDash] at hc
  | cons a as ih =>
    intro c hc
    cases hr : collapseDash as with
    | nil =>
      simp only [collapseDash, hr] at hc
      simp at hc
      simp [hc]
    | cons d ds =>
      simp only [collapseDash, hr] at hc
      by_cases hb : (a == '-' && d == '-') = true
      · rw [if_pos hb] at hc
        exact List.mem_cons_of_mem a (ih c (by rw [hr]; exact hc))
      · rw [if_neg hb] at hc
        rcases List.mem_cons.mp hc with h1 | h1
        · simp [h1]
        · exact List.mem_cons_of_mem a (ih c (by rw [hr]; exact h1))

lemma collapseDash_mem (l : List Char) (c : Char) (hc : c ∈ l)
    (hne : (c == '-') = false) : c ∈ collapseDash l := by
  induction l with
  | nil => cases hc
  | cons a as ih =>
    cases hr : collapseDash as with
    | nil =>
      simp only [collapseDash, hr]
      rcases List.mem_cons.mp hc with h1 | h1
      · simp [h1]
      · have := ih h1
        rw [hr] at this
        cases this
    | cons d ds =>
      simp only [collapseDash, hr]
      by_cases hb : (a == '-' && d == '-') = true
      · rw [if_pos hb]
        rcases List.mem_cons.mp hc with h1 | h1
        · exfalso
          rw [Bool.and_eq_true] at hb
          have ha : (a == '-') = true := hb.1
          rw [h1] at hne
          rw [hne] at ha
          cases ha
        · have := ih h1
          rw [hr] at this
          exact this
      · rw [if_neg hb]
        rcases List.mem_cons.mp hc with h1 | h1
        · simp [h1]
        · have := ih h1
          rw [hr] at this
          exact List.mem_cons_of_mem a this

lemma noDD_collapseDash (l : List Char) : noDD (collapseDash l) = true := by
  induction l with
  | nil => rfl
  | cons a as ih =>
    cases hr : collapseDash as with
    | nil =>
      simp only [collapseDash, hr]
      rfl
    | cons d ds =>
      rw [hr] at ih
      simp only [collapseDash, hr]
      by_cases hb : (a == '-' && d == '-') = true
      · rw [if_pos hb]
        exact ih
      · rw [if_neg hb]
        rw [noDD, Bool.and_eq_true]
        exact ⟨by simp [Bool.eq_false_iff.mpr hb], ih⟩

lemma noDD_dropWhile (p : Char → Bool) (l : List Char) (h : noDD l = true) :
    noDD (l.dropWhile p) = true := by
  induction l with
  | nil => rfl
  | cons a as ih =>
    rw [List.dropWhile_cons]
    by_cases hp : p a = true
    · rw [if_pos hp]
      exact ih (noDD_tail a as h)
    · rw [if_neg hp]
      exact h

lemma headNotDash_dropWhileDash (l : List Char) :
    headNotDash (l.dropWhile (fun c => c == '-')) = true := by
  induction l with
  | nil => rfl
  | cons a as ih =>
    rw [List.dropWhile_cons]
    by_cases ha : (a == '-') = true
    · rw [if_pos ha]
      exact ih
    · rw [if_neg ha]
      rw [headNotDash]
      simp [Bool.eq_false_iff.mpr ha]

lemma dropTrail_subset (l : List Char) : ∀ c ∈ dropTrail l, c ∈ l := by
  induction l with
  | nil =>
    intro c hc
    cases hc
  | cons a as ih =>
    intro c hc
    cases hr : dropTrail as with
    | nil =>
      simp only [dropTrail, hr] at hc
      by_cases ha : (a == '-') = true
      · rw [if_pos ha] at hc
        cases hc
      · rw [if_neg ha] at hc
        simp at hc
        simp [hc]
    | cons d ds =>
      simp only [dropTrail, hr] at hc
      rcases List.mem_cons.mp hc with h1 | h1
      · simp [h1]
      · exact List.mem_cons_of_mem a (ih c (by rw [hr]; exact h1))

lemma dropTrail_cons_inv (l : List Char) (d : Char) (ds : List Char)
    (h : dropTrail l = d :: ds) : ∃ t, l = d :: t := by
  cases l with
  | nil => cases h
  | cons a as =>
    cases hr : dropTrail as with
    | nil =>
      simp only [dropTrail, hr] at h
      by_cases ha : (a == '-') = true
      · rw [if_pos ha] at h
        cases h
      · rw [if_neg ha] at h
        have : a = d := by
          have := List.cons.injEq a [] d ds ▸ congrArg id h
          exact (List.cons.inj h).1
        exact ⟨as, by rw [this]⟩
    | cons e es =>
      simp only [dropTrail, hr] at h
      have : a = d := (List.cons.inj h).1
      exact ⟨as, by rw [this]⟩

lemma noDD_dropTrail (l : List Char) (h : noDD l = true) :
    noDD (dropTrail l) = true := by
  induction l with
  | nil => rfl
  | cons a as ih =>
    have ht := noDD_tail a as h
    cases hr : dropTrail as with
    | nil =>
      simp only [dropTrail, hr]
      by_cases ha : (a == '-') = true
      · rw [if_pos ha]
        rfl
      · rw [if_neg ha]
        rfl
    | cons d ds =>
      obtain ⟨t, ht2⟩ := dropTrail_cons_inv as d ds hr
      simp only [dropTrail, hr]
      have hih := ih ht
      rw [hr] at hih
      rw [noDD, Bool.and_eq_true]
      refine ⟨?_, hih⟩
      rw [ht2] at h
      rw [noDD, Bool.and_eq_true] at h
      exact h.1

lemma headNotDash_dropTrail (l : List Char) (h : headNotDash l = true) :
    headNotDash (dropTrail l) = true := by
  cases hr : dropTrail l with
  | nil => rfl
  | cons d ds =>
    obtain ⟨t, ht⟩ := dropTrail_cons_inv l d ds hr
    rw [ht] at h
    exact h

lemma lastNotDash_dropTrail (l : List Char) : lastNotDash (dropTrail l) = true := by
  induction l with
  | nil => rfl
  | cons a as ih =>
    cases hr : dropTrail as with
    | nil =>
      simp only [dropTrail, hr]
      by_cases ha : (a == '-') = true
      · rw [if_pos ha]
        rfl
      · rw [if_neg ha]
        rw [lastNotDash]
        simp [Bool.eq_false_iff.mpr ha]
    | cons d ds =>
      simp only [dropTrail, hr]
      rw [lastNotDash]
      rw [← hr]
      exact ih

lemma dropTrail_nil_all (l : List Char) (h : dropTrail l = []) :
    ∀ c ∈ l, c = '-' := by
  induction l with
  | nil =>
    intro c hc
    cases hc
  | cons a as ih =>
    cases hr : dropTrail as with
    | cons d ds =>
      simp only [dropTrail, hr] at h
      cases h
    | nil =>
      simp only [dropTrail, hr] at h
      by_cases ha : (a == '-') = true
      · intro c hc
        rcases List.mem_cons.mp hc with h1 | h1
        · rw [h1]
          simpa using ha
        · exact ih hr c h1
      · rw [if_neg ha] at h
        cases h

lemma dropTrail_mem (l : List Char) (c : Char) (hc : c ∈ l)
    (hne : (c == '-') = false) : c ∈ dropTrail l := by
  induction l with
  | nil => cases hc
  | cons a as ih =>
    cases hr : dropTrail as with
    | nil =>
      have hall := dropTrail_nil_all as hr
      simp only [dropTrail, hr]
      rcases List.mem_cons.mp hc with h1 | h1
      · have hane : (a == '-') = false := by rw [← h1]; exact hne
        rw [if_neg (by simp [hane])]
        simp [h1]
      · exfalso
        have := hall c h1
        rw [this] at hne
        simp at hne
    | cons d ds =>
      simp only [dropTrail, hr]
      rcases List.mem_cons.mp hc with h1 | h1
      · simp [h1]
      · have := ih h1
        rw [hr] at this
        exact List.mem_cons_of_mem a this

lemma dropWhile_mem (l : List Char) (c : Char) (hc : c ∈ l)
    (hne : (c == '-') = false) :
    c ∈ l.dropWhile (fun x => x == '-') := by
  induction l with
  | nil => cases hc
  | cons a as ih =>
    rw [List.dropWhile_cons]
    by_cases ha : (a == '-') = true
    · rw [if_pos ha]
      rcases List.mem_cons.mp hc with h1 | h1
      · exfalso
        rw [h1] at hne
        rw [hne] at ha
        cases ha
      · exact ih h1
    · rw [if_neg ha]
      exact hc

lemma lowerChar_fix (c : Char) (h : (isSlugChar c || c == '-') = true) :
    lowerChar c = c := by
  rw [Bool.or_eq_true] at h
  rcases h with h1 | h2
  · rw [lowerChar]
    apply if_neg
    simp only [isSlugChar, Bool.or_eq_true, Bool.and_eq_true, decide_eq_true_eq] at h1 ⊢
    omega
  · have : c = '-' := by simpa using h2
    subst this
    decide

lemma map_lowerChar_fix (l : List Char)
    (h : ∀ c ∈ l, (isSlugChar c || c == '-') = true) :
    l.map lowerChar = l := by
  induction l with
  | nil => rfl
  | cons a as ih =>
    rw [List.map_cons, lowerChar_fix a (h a (List.mem_cons_self a as)),
        ih (fun c hc => h c (List.mem_cons_of_mem a hc))]

lemma dashify_fix (l : List Char)
    (h : ∀ c ∈ l, (isSlugChar c || c == '-') = true) :
    dashify l = l := by
  induction l with
  | nil => rfl
  | cons a as ih =>
    rw [dashify, List.map_cons]
    have htail : dashify as = as := ih (fun c hc => h c (List.mem_cons_of_mem a hc))
    rw [dashify] at htail
    rw [htail]
    by_cases hs : isSlugChar a = true
    · rw [if_pos hs]
    · rw [if_neg hs]
      have hor := h a (List.mem_cons_self a as)
      rw [Bool.or_eq_true] at hor
      rcases hor with h1 | h2
      · exact absurd h1 hs
      · have : a = '-' := by simpa using h2
        rw [this]

lemma collapseDash_fix (l : List Char) (h : noDD l = true) :
    collapseDash l = l := by
  induction l with
  | nil => rfl
  | cons a as ih =>
    have ht := ih (noDD_tail a as h)
    cases hr : collapseDash as with
    | nil =>
      have has : as = [] := by rw [← ht, hr]
      subst has
      rfl
    | cons d ds =>
      have has : as = d :: ds := by rw [← ht, hr]
      simp only [collapseDash, hr]
      have hb : (a == '-' && d == '-') = false := by
        rw [has] at h
        rw [noDD, Bool.and_eq_true] at h
        have h1 := h.1
        cases hx : (a == '-' && d == '-')
        · rfl
        · rw [hx] at h1
          simp at h1
      rw [if_neg (by simp [hb]), has]

lemma dropWhile_fix (l : List Char) (h : headNotDash l = true) :
    l.dropWhile (fun c => c == '-') = l := by
  cases l with
  | nil => rfl
  | cons a as =>
    rw [headNotDash] at h
    rw [List.dropWhile_cons, if_neg (by simp_all)]

lemma dropTrail_fix (l : List Char) (h : lastNotDash l = true) :
    dropTrail l = l := by
  induction l with
  | nil => rfl
  | cons a as ih =>
    cases as with
    | nil =>
      rw [lastNotDash] at h
      show (if (a == '-') = true then ([] : List Char) else [a]) = [a]
      rw [if_neg (by simp_all)]
    | cons b bs =>
      rw [lastNotDash] at h
      have hd := ih h
      calc dropTrail (a :: b :: bs)
          = (match dropTrail (b :: bs) with
             | [] => if a == '-' then [] else [a]
             | d :: ds => a :: d :: ds) := rfl
        _ = a :: b :: bs := by rw [hd]

lemma slugify_data (t : String) :
    (slugify t).data = dropTrail ((collapseDash (dashify (lowerStr t).data)).dropWhile
      (fun c => c == '-')) := rfl

lemma slugify_chars (t : String) :
    ∀ c ∈ (slugify t).data, (isSlugChar c || c == '-') = true := by
  intro c hc
  rw [slugify_data] at hc
  have h1 := dropTrail_subset _ c hc
  have h2 := (List.dropWhile_sublist (fun c => c == '-')).subset h1
  have h3 := collapseDash_subset _ c h2
  exact dashify_chars _ c h3

lemma slugify_noDD (t : String) : noDD (slugify t).data = true := by
  rw [slugify_data]
  exact noDD_dropTrail _ (noDD_dropWhile _ _ (noDD_collapseDash _))

lemma slugify_headNotDash (t : String) : headNotDash (slugify t).data = true := by
  rw [slugify_data]
  exact headNotDash_dropTrail _ (headNotDash_dropWhileDash _)

lemma slugify_lastNotDash (t : String) : lastNotDash (slugify t).data = true := by
  rw [slugify_data]
  exact lastNotDash_dropTrail _

lemma slugShapeOk_slugify (t : String) : slugShapeOk (slugify t) = true := by
  rw [slugShapeOk]
  rw [Bool.and_eq_true, Bool.and_eq_true, Bool.and_eq_true]
  refine ⟨⟨⟨?_, slugify_noDD t⟩, slugify_headNotDash t⟩, slugify_lastNotDash t⟩
  rw [List.all_eq_true]
  exact slugify_chars t

lemma slugify_idem (t : String) : slugify (slugify t) = slugify t := by
  have hch := slugify_chars t
  have e1 : (lowerStr (slugify t)).data = (slugify t).data := map_lowerChar_fix _ hch
  have e2 : dashify (slugify t).data = (slugify t).data := dashify_fix _ hch
  have e3 : collapseDash (slugify t).data = (slugify t).data :=
    collapseDash_fix _ (slugify_noDD t)
  have e4 : (slugify t).data.dropWhile (fun c => c == '-') = (slugify t).data :=
    dropWhile_fix _ (slugify_headNotDash t)
  have e5 : dropTrail (slugify t).data = (slugify t).data :=
    dropTrail_fix _ (slugify_lastNotDash t)
  show (⟨stripDash (collapseDash (dashify (lowerStr (slugify t)).data))⟩ : String)
        = slugify t
  rw [e1, e2, e3]
  rw [stripDash, e4, e5]

lemma slugify_eq_empty_iff (s : String) :
    slugify s = "" ↔ noAlnumLower s = true := by
  constructor
  · intro h
    by_contra h2
    have hnall : ¬ ∀ c ∈ (lowerStr s).data, (!isSlugChar c) = true := by
      intro hx
      exact h2 (by rw [noAlnumLower]; exact List.all_eq_true.mpr hx)
    push_neg at hnall
    obtain ⟨c, hc, hcn⟩ := hnall
    have hsc : isSlugChar c = true := by
      rcases Bool.eq_false_or_eq_true (isSlugChar c) with hb | hb
      · exact hb
      · exact absurd (by simp [hb]) hcn
    have hne : (c == '-') = false := by
      by_cases hcd : c = '-'
      · subst hcd
        exact absurd hsc (by decide)
      · simp [hcd]
    have h1 : c ∈ dashify (lowerStr s).data :=
      List.mem_map.mpr ⟨c, hc, if_pos hsc⟩
    have h4 := dropTrail_mem _ c (dropWhile_mem _ c (collapseDash_mem _ c h1 hne) hne) hne
    have h5 : c ∈ (slugify s).data := by
      rw [slugify_data]
      exact h4
    rw [h] at h5
    cases h5
  · intro hall
    have hdash : ∀ c ∈ dashify (lowerStr s).data, c = '-' := by
      intro c hc
      obtain ⟨a, ha, hfa⟩ := List.mem_map.mp hc
      rw [noAlnumLower, List.all_eq_true] at hall
      have := hall a ha
      have hs : isSlugChar a = false := by simpa using this
      rw [if_neg (by simp [hs])] at hfa
      exact hfa.symm
    have hdash2 : ∀ c ∈ collapseDash (dashify (lowerStr s).data), c = '-' :=
      fun c hc => hdash c (collapseDash_subset _ c hc)
    have hdw : (collapseDash (dashify (lowerStr s).data)).dropWhile
        (fun c => c == '-') = [] := by
      apply List.dropWhile_eq_nil_iff.mpr
      intro c hc
      simp [hdash2 c hc]
    show (⟨stripDash (collapseDash (dashify (lowerStr s).data))⟩ : String) = ""
    rw [stripDash, hdw]
    rfl

/-- C6: `slugify` is total, maps the empty text to the empty text, always
yields a string over `[a-z0-9-]` with no doubled, leading or trailing
hyphen, and is idempotent. -/
theorem slugify_spec (t : String) :
    slugShapeOk (slugify t) = true ∧ slugify (slugify t) = slugify t ∧
      slugify "" = "" :=
  ⟨slugShapeOk_slugify t, slugify_idem t, rfl⟩

lemma maxByScore_mem :
    ∀ (rest : List (String × Nat)) (best : String × Nat),
      maxByScore best rest ∈ best :: rest := by
  intro rest
  induction rest with
  | nil =>
    intro best
    simp [maxByScore]
  | cons x rest ih =>
    intro best
    rw [maxByScore]
    by_cases hx : best.2 < x.2
    · rw [if_pos hx]
      rcases List.mem_cons.mp (ih x) with h | h
      · rw [h]
        simp
      · simp [h]
    · rw [if_neg hx]
      rcases List.mem_cons.mp (ih best) with h | h
      · rw [h]
        simp
      · simp [h]

lemma maxByScore_spec :
    ∀ (rest : List (String × Nat)) (best : String × Nat),
      (maxByScore best rest = best ∧ ∀ x ∈ rest, x.2 ≤ best.2) ∨
      (∃ r1 r2, rest = r1 ++ maxByScore best rest :: r2 ∧
        best.2 < (maxByScore best rest).2 ∧
        (∀ x ∈ r1, x.2 < (maxByScore best rest).2) ∧
        (∀ x ∈ r2, x.2 ≤ (maxByScore best rest).2)) := by
  intro rest
  induction rest with
  | nil =>
    intro best
    left
    exact ⟨rfl, by simp⟩
  | cons x rest ih =>
    intro best
    rw [maxByScore]
    by_cases hx : best.2 < x.2
    · rw [if_pos hx]
      rcases ih x with ⟨heq, hle⟩ | ⟨r1, r2, hsplit, hlt, hr1, hr2⟩
      · right
        rw [heq]
        exact ⟨[], rest, rfl, hx, by simp, hle⟩
      · right
        refine ⟨x :: r1, r2, ?_, lt_trans hx hlt, ?_, hr2⟩
        · rw [List.cons_append, ← hsplit]
        · intro y hy
          rcases List.mem_cons.mp hy with h | h
          · rw [h]
            exact hlt
          · exact hr1 y h
    · rw [if_neg hx]
      have hxle : x.2 ≤ best.2 := Nat.le_of_not_lt hx
      rcases ih best with ⟨heq, hle⟩ | ⟨r1, r2, hsplit, hlt, hr1, hr2⟩
      · left
        refine ⟨heq, ?_⟩
        intro y hy
        rcases List.mem_cons.mp hy with h | h
        · rw [h]
          exact hxle
        · exact hle y h
      · right
        refine ⟨x :: r1, r2, ?_, hlt, ?_, hr2⟩
        · rw [List.cons_append, ← hsplit]
        · intro y hy
          rcases List.mem_cons.mp hy with h | h
          · rw [h]
            exact lt_of_le_of_lt hxle hlt
          · exact hr1 y h

lemma scored_pos (t : String) :
    ∀ x ∈ scoredCategories t, x.1 ∈ catNames ∧ 0 < x.2 := by
  intro x hx
  obtain ⟨p, hp, hfp⟩ := List.mem_filterMap.mp hx
  by_cases hs : 0 < scoreText p.2 t
  · rw [if_pos hs] at hfp
    have hx2 : x = (p.1, scoreText p.2 t) := by
      injection hfp with h
      exact h.symm
    rw [hx2]
    exact ⟨List.mem_map.mpr ⟨p, hp, rfl⟩, hs⟩
  · rw [if_neg hs] at hfp
    cases hfp

lemma filterMap_split {α β : Type} (f : α → Option β) :
    ∀ (l : List α) (L1 : List β) (y : β) (L2 : List β),
      l.filterMap f = L1 ++ y :: L2 →
      ∃ m1 x m2, l = m1 ++ x :: m2 ∧ f x = some y ∧
        m1.filterMap f = L1 ∧ m2.filterMap f = L2 := by
  intro l
  induction l with
  | nil =>
    intro L1 y L2 h
    rw [List.filterMap_nil] at h
    exact absurd h (by simp)
  | cons a l ih =>
    intro L1 y L2 h
    rw [List.filterMap_cons] at h
    cases hf : f a with
    | none =>
      rw [hf] at h
      obtain ⟨m1, x, m2, h1, h2, h3, h4⟩ := ih L1 y L2 h
      exact ⟨a :: m1, x, m2, by rw [h1]; rfl, h2,
             by rw [List.filterMap_cons, hf, h3], h4⟩
    | some b =>
      rw [hf] at h
      cases L1 with
      | nil =>
        simp only [List.nil_append, List.cons.injEq] at h
        obtain ⟨hby, hrest⟩ := h
        exact ⟨[], a, l, rfl, by rw [hf, hby], rfl, by simpa using hrest⟩
      | cons c L1t =>
        simp only [List.cons_append, List.cons.injEq] at h
        obtain ⟨hbc, hrest⟩ := h
        obtain ⟨m1, x, m2, h1, h2, h3, h4⟩ := ih L1t y L2 hrest
        exact ⟨a :: m1, x, m2, by rw [h1]; rfl, h2,
               by rw [List.filterMap_cons, hf, h3, hbc], h4⟩

lemma categorize_eq_of_scored (name description : Json) (integrations : List String)
    (s : String × Nat) (rest : List (String × Nat))
    (hsc : scoredCategories (blobOf name description integrations) = s :: rest) :
    categorize_workflow name description integrations = (maxByScore s rest).1 := by
  simp only [categorize_workflow]
  rw [hsc]

lemma categorize_eq_default (name description : Json) (integrations : List String)
    (hsc : scoredCategories (blobOf name description integrations) = []) :
    categorize_workflow name description integrations = "automation" := by
  simp only [categorize_workflow]
  rw [hsc]

/-- The first-argmax property of the scores list, lifted to the taxonomy. -/
lemma scored_max_split (t : String) (s : String × Nat) (rest : List (String × Nat))
    (hsc : scoredCategories t = s :: rest) :
    ∃ m1 kws m2,
      load_search_categories = m1 ++ ((maxByScore s rest).1, kws) :: m2 ∧
      0 < scoreText kws t ∧
      (∀ p ∈ m1, scoreText p.2 t < scoreText kws t) ∧
      (∀ p ∈ m2, scoreText p.2 t ≤ scoreText kws t) := by
  have hrmem : maxByScore s rest ∈ scoredCategories t := by
    rw [hsc]
    exact maxByScore_mem rest s
  have hrpos : 0 < (maxByScore s rest).2 := (scored_pos t _ hrmem).2
  have hsplit : ∃ L1 L2, scoredCategories t = L1 ++ maxByScore s rest :: L2 ∧
      (∀ x ∈ L1, x.2 < (maxByScore s rest).2) ∧
      (∀ x ∈ L2, x.2 ≤ (maxByScore s rest).2) := by
    rcases maxByScore_spec rest s with ⟨heq, hle⟩ | ⟨r1, r2, hsp, hlt, hr1, hr2⟩
    · refine ⟨[], rest, ?_, by simp, by rw [heq]; exact hle⟩
      rw [hsc, heq, List.nil_append]
    · refine ⟨s :: r1, r2, ?_, ?_, hr2⟩
      · rw [hsc]
        conv_lhs => rw [hsp]
        rfl
      · intro y hy
        rcases List.mem_cons.mp hy with h | h
        · rw [h]
          exact hlt
        · exact hr1 y h
  obtain ⟨L1, L2, hLs, hL1, hL2⟩ := hsplit
  obtain ⟨m1, x, m2, hm, hfx, hfm1, hfm2⟩ :=
    filterMap_split _ load_search_categories L1 (maxByScore s rest) L2 hLs
  obtain ⟨xc, xk⟩ := x
  by_cases hx : 0 < scoreText xk t
  · rw [if_pos hx] at hfx
    have hfx2 : (xc, scoreText xk t) = maxByScore s rest := by
      injection hfx
    have hc : (maxByScore s rest).1 = xc := by rw [← hfx2]
    have hsval : (maxByScore s rest).2 = scoreText xk t := by rw [← hfx2]
    refine ⟨m1, xk, m2, ?_, ?_, ?_, ?_⟩
    · rw [hc]
      exact hm
    · rw [← hsval]
      exact hrpos
    · intro p hp
      rw [← hsval, hsval]
      rw [← hsval]
      by_cases hp2 : 0 < scoreText p.2 t
      · have hmemL : (p.1, scoreText p.2 t) ∈ L1 := by
          rw [← hfm1]
          exact List.mem_filterMap.mpr ⟨p, hp, by rw [if_pos hp2]⟩
        exact hL1 _ hmemL
      · have hz : scoreText p.2 t = 0 := by omega
        rw [hz]
        exact hrpos
    · intro p hp
      rw [← hsval]
      by_cases hp2 : 0 < scoreText p.2 t
      · have hmemL : (p.1, scoreText p.2 t) ∈ L2 := by
          rw [← hfm2]
          exact List.mem_filterMap.mpr ⟨p, hp, by rw [if_pos hp2]⟩
        exact hL2 _ hmemL
      · have hz : scoreText p.2 t = 0 := by omega
        rw [hz]
        exact Nat.zero_le _
  · rw [if_neg hx] at hfx
    cases hfx

/-- The result of `categorize_workflow` is always a taxonomy category. -/
lemma categorize_mem_catNames (name description : Json)
    (integrations : List String) :
    categorize_workflow name description integrations ∈ catNames := by
  cases hsc : scoredCategories (blobOf name description integrations) with
  | nil =>
    rw [categorize_eq_default name description integrations hsc]
    decide
  | cons s rest =>
    rw [categorize_eq_of_scored name description integrations s rest hsc]
    have hmem : maxByScore s rest ∈
        scoredCategories (blobOf name description integrations) := by
      rw [hsc]
      exact maxByScore_mem rest s
    exact (scored_pos _ _ hmem).1

/-- C1 (amended): `categorize_workflow` always returns a member of the fixed
10-category taxonomy, and when no taxonomy keyword occurs as a substring of
the combined lower-cased blob it returns the default `"automation"`.  (The
"only if" half of the original claim fails: `"automation"` is itself a
scored category, see the counterexample.) -/
theorem categorize_taxonomy_and_default (name description : Json)
    (integrations : List String) :
    categorize_workflow name description integrations ∈ catNames ∧
    (anyKeywordMatch name description integrations = false →
      categorize_workflow name description integrations = "automation") := by
  constructor
  · exact categorize_mem_catNames name description integrations
  · intro hno
    apply categorize_eq_default
    apply List.filterMap_eq_nil_iff.mpr
    intro p hp
    have hocc : ∀ kw ∈ p.2,
        occursStr kw (blobOf name description integrations) = false := by
      intro kw hkw
      rcases Bool.eq_false_or_eq_true
          (occursStr kw (blobOf name description integrations)) with h | h
      · exfalso
        have hany : anyKeywordMatch name description integrations = true := by
          rw [anyKeywordMatch]
          exact List.any_eq_true.mpr ⟨p, hp, List.any_eq_true.mpr ⟨kw, hkw, h⟩⟩
        rw [hno] at hany
        cases hany
      · exact h
    have hfil : p.2.filter
        (fun kw => occursStr kw (blobOf name description integrations)) = [] :=
      List.filter_eq_nil_iff.mpr (fun kw hkw => by simp [hocc kw hkw])
    have hz : scoreText p.2 (blobOf name description integrations) = 0 := by
      simp [scoreText, hfil]
    simp [hz]

/-- C1 counterexample: on the name `"workflow"` a taxonomy keyword occurs
in the blob, yet `categorize_workflow` still returns `"automation"` (via
the scored branch), so "returns `automation` if and only if no keyword
occurs" is false as stated. -/
theorem categorize_default_counterexample :
    categorize_workflow (.str "workflow") (.str "") [] = "automation" ∧
      anyKeywordMatch (.str "workflow") (.str "") [] = true := by
  decide

/-- C1 witness: a blob with no taxonomy keyword gets the default category. -/
theorem categorize_taxonomy_and_default_witness :
    categorize_workflow (.str "zzz") (.str "qqq") [] = "automation" :=
  (categorize_taxonomy_and_default (.str "zzz") (.str "qqq") []).2 (by decide)

/-- C4: each category's score equals the number of distinct keywords of the
category occurring in the blob (the taxonomy lists are duplicate-free), and
when some category scores positively, the returned category carries a
positive score, every category listed before it in taxonomy order scores
strictly less, and every category after it scores no more — the
highest-scoring category with ties broken by taxonomy order. -/
theorem categorize_first_argmax (name description : Json)
    (integrations : List String)
    (hpos : ∃ p ∈ load_search_categories,
      0 < scoreText p.2 (blobOf name description integrations)) :
    (∀ p ∈ load_search_categories,
      scoreText p.2 (blobOf name description integrations) =
        ((p.2.filter (fun kw =>
            occursStr kw (blobOf name description integrations))).dedup).length) ∧
    ∃ m1 kws m2,
      load_search_categories =
        m1 ++ (categorize_workflow name description integrations, kws) :: m2 ∧
      0 < scoreText kws (blobOf name description integrations) ∧
      (∀ p ∈ m1, scoreText p.2 (blobOf name description integrations) <
        scoreText kws (blobOf name description integrations)) ∧
      (∀ p ∈ m2, scoreText p.2 (blobOf name description integrations) ≤
        scoreText kws (blobOf name description integrations)) := by
  constructor
  · intro p hp
    have hnodup : ∀ q ∈ load_search_categories, q.2.Nodup := by decide
    have hfil : (p.2.filter (fun kw =>
        occursStr kw (blobOf name description integrations))).Nodup :=
      (hnodup p hp).filter _
    rw [List.dedup_eq_self.mpr hfil]
    rfl
  · obtain ⟨p0, hp0, hs0⟩ := hpos
    have hmem : (p0.1, scoreText p0.2 (blobOf name description integrations)) ∈
        scoredCategories (blobOf name description integrations) :=
      List.mem_filterMap.mpr ⟨p0, hp0, by simp [hs0]⟩
    cases hsc : scoredCategories (blobOf name description integrations) with
    | nil =>
      rw [hsc] at hmem
      cases hmem
    | cons s rest =>
      rw [categorize_eq_of_scored name description integrations s rest hsc]
      exact scored_max_split _ s rest hsc

/-- C4 witness: on the blob of name `"lead"` the marketing category scores
positively and the first-argmax characterization holds. -/
theorem categorize_first_argmax_witness :
    ∃ m1 kws m2,
      load_search_categories =
        m1 ++ (categorize_workflow (.str "lead") (.str "") [], kws) :: m2 ∧
      0 < scoreText kws (blobOf (.str "lead") (.str "") []) ∧
      (∀ p ∈ m1, scoreText p.2 (blobOf (.str "lead") (.str "") []) <
        scoreText kws (blobOf (.str "lead") (.str "") [])) ∧
      (∀ p ∈ m2, scoreText p.2 (blobOf (.str "lead") (.str "") []) ≤
        scoreText kws (blobOf (.str "lead") (.str "") [])) :=
  (categorize_first_argmax (.str "lead") (.str "") [] (by decide)).2

/-- C2: when the nodes derive more than 5 distinct integration names the
result has length exactly 5; when they derive at most 5 the result is, as a
set, exactly the distinct set; and a document without a `nodes` field
yields the empty sequence.  (`integrationsSet` is the full distinct set the
loop collects, before `list(integrations)[:5]`.) -/
theorem extract_integrations_spec :
    (∀ (doc : Json) (l D : List String),
      extract_integrations doc = .ok l → integrationsSet doc = .ok D →
      (5 < D.length → l.length = 5) ∧
      (D.length ≤ 5 → ∀ x, x ∈ l ↔ x ∈ D)) ∧
    (∀ fs : List (String × Json),
      fs.any (fun kv => kv.1 == "nodes") = false →
      extract_integrations (.obj fs) = .ok []) := by
  constructor
  · intro doc l D hres hall
    have hl : l = D.take 5 := by
      rw [extract_integrations] at hres
      rw [hall] at hres
      simp only [Except.ok.injEq] at hres
      exact hres.symm
    subst hl
    constructor
    · intro h5
      rw [List.length_take]
      omega
    · intro h5 x
      rw [List.take_of_length_le h5]
  · intro fs hno
    rw [extract_integrations, integrationsSet]
    simp only [pyContains, hno]
    rfl

/-- C2 witness: six distinct derivable names are truncated to five, and a
document without a `nodes` field yields no integrations. -/
theorem extract_integrations_spec_witness :
    (["A", "B", "C", "D", "E"] : List String).length = 5 ∧
      extract_integrations (.obj [("name", .str "x")]) = .ok [] :=
  ⟨(extract_integrations_spec.1 doc6 ["A", "B", "C", "D", "E"]
      ["A", "B", "C", "D", "E", "F"] rfl rfl).1 (by decide),
   extract_integrations_spec.2 [("name", .str "x")] rfl⟩

/-! ## Inversion of a successful `buildRecord` -/

lemma extract_ok_inv (j : Json) (l : List String)
    (h : extract_integrations j = .ok l) :
    ∃ D, integrationsSet j = .ok D ∧ l = D.take 5 := by
  rw [extract_integrations] at h
  cases hs : integrationsSet j with
  | error e =>
    rw [hs] at h
    exact absurd h (by simp)
  | ok D =>
    rw [hs] at h
    simp only [Except.ok.injEq] at h
    exact ⟨D, rfl, h.symm⟩

/-- Everything a successfully built record satisfies, read off the chain of
matches in `buildRecord`. -/
lemma buildRecord_ok_inv (fi : FileInput) (w : Workflow)
    (h : buildRecord fi = .ok w) :
    ∃ fs, fi.parsed = .ok (.obj fs) ∧
      w.name = (objLookup fs "name").getD (.str (pathStem fi.path)) ∧
      (∃ s, w.name = .str s ∧ w.slug = slugify s) ∧
      (∃ D, integrationsSet (.obj fs) = .ok D ∧ w.integrations = D.take 5) ∧
      (∃ d, w.category = categorize_workflow w.name d w.integrations) ∧
      w.updated_at =
        (if pyTruthy ((objLookup fs "updatedAt").getD .null) then
          (objLookup fs "updatedAt").getD .null
         else Json.str fi.mtimeIso) := by
  unfold buildRecord at h
  split at h
  · exact absurd h (by simp)
  · rename_i data hdata
    split at h
    · exact absurd h (by simp)
    · rename_i name hname
      split at h
      · exact absurd h (by simp)
      · rename_i desc0 hdesc0
        split at h
        · exact absurd h (by simp)
        · rename_i description hdescription
          split at h
          · exact absurd h (by simp)
          · rename_i integrations hint
            split at h
            · exact absurd h (by simp)
            · rename_i slug hslug
              split at h
              · exact absurd h (by simp)
              · rename_i upJ hupJ
                injection h with hw
                subst hw
                cases data with
                | obj fs =>
                  refine ⟨fs, hdata, ?_, ?_, ?_, ⟨description, rfl⟩, ?_⟩
                  · rw [pyDictGet] at hname
                    simp only [Except.ok.injEq] at hname
                    exact hname.symm
                  · cases name with
                    | str s =>
                      rw [slugifyPy] at hslug
                      simp only [Except.ok.injEq] at hslug
                      exact ⟨s, rfl, hslug.symm⟩
                    | null => exact absurd hslug (by simp [slugifyPy])
                    | bool b => exact absurd hslug (by simp [slugifyPy])
                    | num n => exact absurd hslug (by simp [slugifyPy])
                    | arr xs => exact absurd hslug (by simp [slugifyPy])
                    | obj fs2 => exact absurd hslug (by simp [slugifyPy])
                  · exact extract_ok_inv _ _ hint
                  · rw [pyDictGet] at hupJ
                    simp only [Except.ok.injEq] at hupJ
                    rw [← hupJ]
                | null => exact absurd hname (by simp [pyDictGet])
                | bool b => exact absurd hname (by simp [pyDictGet])
                | num n => exact absurd hname (by simp [pyDictGet])
                | str s => exact absurd hname (by simp [pyDictGet])
                | arr xs => exact absurd hname (by simp [pyDictGet])

lemma process_some_inv (fi : FileInput) (w : Workflow)
    (h : process_workflow_file fi = some w) : buildRecord fi = .ok w := by
  unfold process_workflow_file at h
  cases hx : buildRecord fi with
  | ok v =>
    rw [hx] at h
    simp at h
    rw [h]
  | error e =>
    rw [hx] at h
    simp at h

/-! ## C5, C7, C8, C9, C10 -/

/-- C5 (amended): every successfully built record has at most 5
integrations, a category in the fixed taxonomy, and a slug over `[a-z0-9-]`
with no doubled, leading or trailing hyphen; the slug is empty exactly when
the resolved name contains no alphanumeric character after lower-casing
(so non-emptiness, as originally claimed, fails for such names). -/
theorem process_record_invariants (fi : FileInput) (w : Workflow)
    (h : process_workflow_file fi = some w) :
    w.integrations.length ≤ 5 ∧ w.category ∈ catNames ∧
      slugShapeOk w.slug = true ∧
      ∃ s, w.name = .str s ∧ (w.slug = "" ↔ noAlnumLower s = true) := by
  obtain ⟨fs, hparsed, hnm, ⟨s, hname, hslug⟩, ⟨D, hD, hints⟩, ⟨d, hcat⟩, hup⟩ :=
    buildRecord_ok_inv fi w (process_some_inv fi w h)
  refine ⟨?_, ?_, ?_, ⟨s, hname, ?_⟩⟩
  · rw [hints, List.length_take]
    omega
  · rw [hcat]
    exact categorize_mem_catNames w.name d w.integrations
  · rw [hslug]
    exact slugShapeOk_slugify s
  · rw [hslug]
    exact slugify_eq_empty_iff s

/-- C5 counterexample: a document whose `name` is the empty string is
processed successfully, and the resulting record's slug is empty — the
claimed non-emptiness of the slug fails. -/
theorem process_empty_slug_counterexample :
    process_workflow_file fiEmptyName = some recEmptyName ∧
      recEmptyName.slug = "" :=
  ⟨rfl, rfl⟩

/-- C5 witness: the invariants instantiated on scenario 1. -/
theorem process_record_invariants_witness :
    record9.integrations.length ≤ 5 ∧ record9.category ∈ catNames ∧
      slugShapeOk record9.slug = true ∧
      ∃ s, record9.name = .str s ∧
        (record9.slug = "" ↔ noAlnumLower s = true) :=
  process_record_invariants fi9 record9 rfl

/-- C7: the record's `updated_at` is the document's `updatedAt` field when
that field is present as non-empty text, and the file's modification time
when the field is absent or the empty string (`if not updated_at`). -/
theorem updated_at_resolution (fi : FileInput) (fs : List (String × Json))
    (w : Workflow) (hparse : fi.parsed = .ok (.obj fs))
    (h : process_workflow_file fi = some w) :
    (objLookup fs "updatedAt" = none → w.updated_at = .str fi.mtimeIso) ∧
    (objLookup fs "updatedAt" = some (.str "") →
      w.updated_at = .str fi.mtimeIso) ∧
    (∀ u : String, objLookup fs "updatedAt" = some (.str u) → u ≠ "" →
      w.updated_at = .str u) := by
  obtain ⟨fs2, hparsed2, _, _, _, _, hup⟩ :=
    buildRecord_ok_inv fi w (process_some_inv fi w h)
  have hfs : fs2 = fs := by
    rw [hparse] at hparsed2
    injection hparsed2 with h2
    injection h2 with h3
    exact h3.symm
  subst hfs
  refine ⟨?_, ?_, ?_⟩
  · intro hcase
    rw [hup, hcase]
    rfl
  · intro hcase
    rw [hup, hcase]
    rfl
  · intro u hcase hne
    rw [hup, hcase]
    have : pyTruthy (.str u) = true := by
      simp [pyTruthy, hne]
    simp [Option.getD, this]

/-- C7 witness: a present-but-empty `updatedAt` falls back to the file
modification time. -/
theorem updated_at_resolution_witness :
    record7.updated_at = .str "MT" :=
  (updated_at_resolution fi7 [("name", .str "A"), ("updatedAt", .str "")]
    record7 rfl rfl).2.1 rfl

/-- C8: a file on which `buildRecord` raises is excluded from the output
and changes nothing else — the remaining files are still processed and the
output document is still produced. -/
theorem failure_isolated (l1 l2 : List FileInput) (fi : FileInput)
    (now : String) (e : PyErr) (h : buildRecord fi = .error e) :
    buildOutput (l1 ++ fi :: l2) now = buildOutput (l1 ++ l2) now := by
  have hnone : process_workflow_file fi = none := by
    unfold process_workflow_file
    rw [h]
  have hfm : (l1 ++ fi :: l2).filterMap process_workflow_file =
      (l1 ++ l2).filterMap process_workflow_file := by
    rw [List.filterMap_append, List.filterMap_append, List.filterMap_cons,
        hnone]
  simp only [buildOutput, hfm]

/-- C8 witness: a parse failure in the middle of the batch is dropped
without affecting the other file or the output. -/
theorem failure_isolated_witness :
    buildOutput [fi9, fiBad] "now" = buildOutput [fi9] "now" :=
  failure_isolated [fi9] [] fiBad "now" (.jsonDecodeError "invalid") rfl

/-- C9: end-to-end scenario 1 — the record for
`{"name": "Lead Email Campaign", "nodes": [{"type": "n8n-nodes-base.gmail"}]}`
has slug `"lead-email-campaign"`, integrations `["Gmail"]` and category
`"marketing"`. -/
theorem scenario_lead_email_campaign :
    process_workflow_file fi9 = some record9 ∧
      record9.slug = "lead-email-campaign" ∧
      record9.integrations = ["Gmail"] ∧
      record9.category = "marketing" :=
  ⟨rfl, rfl, rfl, rfl⟩

/-- C10 (amended): a document whose `name` field is present with a numeric
value always raises (at `name.lower()` or at `slugify`) and the file is
skipped.  Not every wrongly-typed present field raises, see the
counterexample with a text-valued `nodes` field. -/
theorem numeric_name_skipped (fi : FileInput) (fs : List (String × Json))
    (n : Int) (hparse : fi.parsed = .ok (.obj fs))
    (hname : objLookup fs "name" = some (.num n)) :
    process_workflow_file fi = none := by
  cases hx : buildRecord fi with
  | error e =>
    unfold process_workflow_file
    rw [hx]
  | ok w =>
    exfalso
    obtain ⟨fs2, hparsed2, hnm, ⟨s, hstr, _⟩, _, _, _⟩ :=
      buildRecord_ok_inv fi w hx
    have hfs : fs2 = fs := by
      rw [hparse] at hparsed2
      injection hparsed2 with h2
      injection h2 with h3
      exact h3.symm
    subst hfs
    rw [hname] at hnm
    rw [hstr] at hnm
    simp [Option.getD] at hnm

/-- C10 counterexample: a present non-list `nodes` field of text type does
not make record building raise — the file is processed successfully, so
"every wrongly-typed present field raises" is false as stated. -/
theorem wrong_typed_tolerated_counterexample :
    process_workflow_file fi10b = some record10b := rfl

/-- C10 witness: a numeric `name` makes the file be skipped. -/
theorem numeric_name_skipped_witness :
    process_workflow_file fi10a = none :=
  numeric_name_skipped fi10a [("name", .num 5)] 5 rfl rfl

end BuildWorkflows
